import Mathlib

set_option maxRecDepth 10000

/-!
# Verification of the `harn` test runner (main.go)

A shallow embedding of the execution/comparison engine of `harn`, a
command-line test runner.  Strings are modelled as `List Char` (one `Char`
per byte; the program only manipulates byte strings).  Filesystem and
child-process behaviour are modelled by explicit environments, and the
driver loop (`main`'s per-test loop) by explicit state passing.
-/

/-- Byte strings of the program, one `Char` per byte. -/
abbrev Str := List Char

/-! ## Go string primitives used by main.go -/

/-- Go `unicode.IsSpace`: Unicode white space, as listed in the Go
standard library (`'\t'`..`'\r'`, space, NEL, NBSP and the Unicode
space separators). -/
def goIsSpace (c : Char) : Bool :=
  c = ' ' || c = '\t' || c = '\n' || (0x0B ≤ c.toNat && c.toNat ≤ 0x0D) ||
  c.toNat = 0x85 || c.toNat = 0xA0 || c.toNat = 0x1680 ||
  (0x2000 ≤ c.toNat && c.toNat ≤ 0x200A) ||
  c.toNat = 0x2028 || c.toNat = 0x2029 || c.toNat = 0x202F ||
  c.toNat = 0x205F || c.toNat = 0x3000

/-- Go `strings.TrimSpace`: drop leading and trailing white space. -/
def trimSpace (s : Str) : Str :=
  ((s.dropWhile goIsSpace).reverse.dropWhile goIsSpace).reverse

/-- Go `strings.TrimSuffix s suffix`: remove one trailing copy of
`suffix` when present (`s[:len(s)-len(suffix)]`), otherwise `s`. -/
def trimSuffix (s suffix : Str) : Str :=
  if suffix.isSuffixOf s then s.take (s.length - suffix.length) else s

/-- main.go line 55-58 and 82: the expected-output path of an input file,
`strings.TrimSuffix(inputFile, ".in") + expectedExt` where the extension
is `".hash"` in hash mode and `".out"` otherwise. -/
def resolveExpectedPath (useHash : Bool) (inputFile : Str) : Str :=
  trimSuffix inputFile ".in".toList ++
    (if useHash then ".hash".toList else ".out".toList)

/-! ## readFile (main.go lines 244-264)

`readFile` scans the file with `bufio.Scanner` (lines split at `'\n'`,
one trailing `'\r'` dropped per token, a final unterminated line still
produced), appends `"\n"` after every token and finally trims one
trailing `"\n"`.  `readFileNorm` is the induced transformation on the
raw file content. -/

/-- `bufio.dropCR`: drop one trailing `'\r'` from a scanned token. -/
def dropCR (l : Str) : Str :=
  if l.getLast? = some '\r' then l.dropLast else l

/-- The token sequence produced by `bufio.Scanner` with `ScanLines` on
the given content: split at each `'\n'` (dropping one `'\r'` before it),
and at end of input emit the leftover data (also `dropCR`-ed) when it is
non-empty. -/
def scanLoop : Nat → Str → List Str
  | 0, _ => []
  | _, [] => []
  | fuel + 1, c :: rest =>
    if ((c :: rest).takeWhile (fun a => a ≠ '\n')).length = (c :: rest).length then
      [dropCR (c :: rest)]
    else
      dropCR ((c :: rest).takeWhile (fun a => a ≠ '\n')) ::
        scanLoop fuel ((c :: rest).drop (((c :: rest).takeWhile (fun a => a ≠ '\n')).length + 1))

/-- The token sequence of the whole content; every loop iteration
consumes at least one character, so `length + 1` rounds of fuel always
suffice. -/
def scanTokens (l : Str) : List Str := scanLoop (l.length + 1) l

/-- The content transformation performed by `readFile` (main.go lines
251-263): every token followed by `"\n"`, then `strings.TrimSuffix _ "\n"`. -/
def readFileNorm (content : Str) : Str :=
  trimSuffix ((scanTokens content).map (fun t => t ++ ['\n'])).flatten ['\n']

/-! ## SHA-256 (Go `crypto/sha256` as used in hash mode)

32-bit words are `Nat` reduced modulo `2^32` wherever overflow matters. -/

/-- `2^32`, the modulus of 32-bit machine arithmetic. -/
def M32 : Nat := 4294967296

/-- Rotate a 32-bit word right by `n`. -/
def rotr (n x : Nat) : Nat := ((x >>> n) ||| (x <<< (32 - n))) % M32

/-- SHA-256 `Ch(x,y,z) = (x AND y) XOR ((NOT x) AND z)`. -/
def shaCh (x y z : Nat) : Nat := (x &&& y) ^^^ ((x ^^^ 4294967295) &&& z)

/-- SHA-256 `Maj(x,y,z)`. -/
def shaMaj (x y z : Nat) : Nat := (x &&& y) ^^^ (x &&& z) ^^^ (y &&& z)

/-- SHA-256 `Σ₀`. -/
def bigSigma0 (x : Nat) : Nat := rotr 2 x ^^^ rotr 13 x ^^^ rotr 22 x

/-- SHA-256 `Σ₁`. -/
def bigSigma1 (x : Nat) : Nat := rotr 6 x ^^^ rotr 11 x ^^^ rotr 25 x

/-- SHA-256 `σ₀`. -/
def smallSigma0 (x : Nat) : Nat := rotr 7 x ^^^ rotr 18 x ^^^ (x >>> 3)

/-- SHA-256 `σ₁`. -/
def smallSigma1 (x : Nat) : Nat := rotr 17 x ^^^ rotr 19 x ^^^ (x >>> 10)

/-- The 64 SHA-256 round constants (decimal). -/
def shaK : List Nat :=
  [1116352408, 1899447441, 3049323471, 3921009573,
   961987163, 1508970993, 2453635748, 2870763221,
   3624381080, 310598401, 607225278, 1426881987,
   1925078388, 2162078206, 2614888103, 3248222580,
   3835390401, 4022224774, 264347078, 604807628,
   770255983, 1249150122, 1555081692, 1996064986,
   2554220882, 2821834349, 2952996808, 3210313671,
   3336571891, 3584528711, 113926993, 338241895,
   666307205, 773529912, 1294757372, 1396182291,
   1695183700, 1986661051, 2177026350, 2456956037,
   2730485921, 2820302411, 3259730800, 3345764771,
   3516065817, 3600352804, 4094571909, 275423344,
   430227734, 506948616, 659060556, 883997877,
   958139571, 1322822218, 1537002063, 1747873779,
   1955562222, 2024104815, 2227730452, 2361852424,
   2428436474, 2756734187, 3204031479, 3329325298]

/-- The eight 32-bit words of a SHA-256 hash state. -/
structure Hash8 where
  a : Nat
  b : Nat
  c : Nat
  d : Nat
  e : Nat
  f : Nat
  g : Nat
  h : Nat

/-- The SHA-256 initial hash value (decimal). -/
def shaH0 : Hash8 :=
  ⟨1779033703, 3144134277, 1013904242, 2773480762,
   1359893119, 2600822924, 528734635, 1541459225⟩

/-- One SHA-256 compression round, consuming one `(k, w)` pair. -/
def shaRound (s : Hash8) (kw : Nat × Nat) : Hash8 :=
  let t1 := (s.h + bigSigma1 s.e + shaCh s.e s.f s.g + kw.1 + kw.2) % M32
  let t2 := (bigSigma0 s.a + shaMaj s.a s.b s.c) % M32
  ⟨(t1 + t2) % M32, s.a, s.b, s.c, (s.d + t1) % M32, s.e, s.f, s.g⟩

/-- Extend the 16 message-schedule words by `fuel` further words. -/
def extendSchedule : Nat → List Nat → List Nat
  | 0, w => w
  | fuel + 1, w =>
    extendSchedule fuel
      (w ++ [(smallSigma1 (w.getD (w.length - 2) 0) + w.getD (w.length - 7) 0 +
              smallSigma0 (w.getD (w.length - 15) 0) + w.getD (w.length - 16) 0) % M32])

/-- Split a list into chunks of `n + 1` elements, fuel-bounded. -/
def chunksLoop (n : Nat) : Nat → List α → List (List α)
  | 0, _ => []
  | _, [] => []
  | fuel + 1, c :: rest =>
    (c :: rest).take (n + 1) :: chunksLoop n fuel ((c :: rest).drop (n + 1))

/-- Split a list into chunks of `n` elements (`n > 0`); each round
consumes at least one element, so `length + 1` rounds of fuel suffice. -/
def chunksOf (n : Nat) (l : List α) : List (List α) :=
  match n with
  | 0 => []
  | m + 1 => chunksLoop m (l.length + 1) l

/-- Read a big-endian 32-bit word from four bytes. -/
def wordOfBytes (bs : List Nat) : Nat :=
  bs.foldl (fun acc b => acc * 256 + b) 0

/-- SHA-256 padding: `0x80`, zeros to 56 mod 64, then the 64-bit
big-endian bit length. -/
def padMessage (msg : List Nat) : List Nat :=
  let L := msg.length
  let zeros := (119 - L % 64) % 64
  let bitLen := (8 * L) % (2 ^ 64)
  msg ++ [0x80] ++ List.replicate zeros 0 ++
    ([56, 48, 40, 32, 24, 16, 8, 0].map (fun s => (bitLen >>> s) % 256))

/-- Compress one 64-byte block into the running hash state. -/
def shaBlock (s : Hash8) (block : List Nat) : Hash8 :=
  let w := extendSchedule 48 ((chunksOf 4 block).map wordOfBytes)
  let t := (shaK.zip w).foldl shaRound s
  ⟨(s.a + t.a) % M32, (s.b + t.b) % M32, (s.c + t.c) % M32, (s.d + t.d) % M32,
   (s.e + t.e) % M32, (s.f + t.f) % M32, (s.g + t.g) % M32, (s.h + t.h) % M32⟩

/-- The 32 digest bytes of a hash state, big-endian per word. -/
def hashBytes (s : Hash8) : List Nat :=
  [s.a, s.b, s.c, s.d, s.e, s.f, s.g, s.h].flatMap
    (fun w => [(w >>> 24) % 256, (w >>> 16) % 256, (w >>> 8) % 256, w % 256])

/-- SHA-256 of a byte sequence. -/
def sha256 (msg : List Nat) : List Nat :=
  hashBytes ((chunksOf 64 (padMessage msg)).foldl shaBlock shaH0)

/-- One lowercase hexadecimal digit. -/
def hexDigit (n : Nat) : Char := "0123456789abcdef".toList.getD n '0'

/-- Go `hex.EncodeToString`: two lowercase hex digits per byte. -/
def hexEncode (bs : List Nat) : Str :=
  bs.flatMap (fun b => [hexDigit (b / 16 % 16), hexDigit (b % 16)])

/-- The string produced by the hash branch of `executeProgram`
(main.go lines 196-212): `hex.EncodeToString(sha256(stdout))`.  A `Char`
stands for one byte of program output. -/
def sha256hex (s : Str) : Str := hexEncode (sha256 (s.map Char.toNat))

/-! ## Filesystem model -/

/-- The state of one path: a regular file with known content, a missing
file, or a path whose `os.Stat`/`os.Open` fail for another reason
(e.g. permissions). -/
inductive FileState where
  | present (content : Str)
  | absent
  | inaccessible
deriving DecidableEq

/-- A filesystem: the state of every path. -/
abbrev FS := Str → FileState

/-- The result of `os.Stat` on a path, as distinguished by
`os.IsNotExist` in main.go line 86: no error, a does-not-exist error,
or some other error. -/
inductive StatRes where
  | ok
  | notExist
  | otherErr
deriving DecidableEq

/-- `os.Stat` classified through `os.IsNotExist`. -/
def statOf : FileState → StatRes
  | .present _ => .ok
  | .absent => .notExist
  | .inaccessible => .otherErr

/-- Point update of a filesystem. -/
def updateFS (fs : FS) (p : Str) (st : FileState) : FS :=
  fun q => if q = p then st else fs q

/-- `readFile` (main.go lines 244-264) against a filesystem: `os.Open`
fails on missing or inaccessible paths; a readable file yields its
content normalized by the scanner loop. -/
def readFileFS (fs : FS) (p : Str) : Except Str Str :=
  match fs p with
  | .present content => .ok (readFileNorm content)
  | .absent => .error "open: no such file or directory".toList
  | .inaccessible => .error "open: permission denied".toList

/-! ## executeProgram (main.go lines 181-229) -/

/-- The classified error of `executeProgram`: `context.DeadlineExceeded`
returned as-is, or a wrapped execution error. -/
inductive ExecError where
  | timeout
  | execError (msg : Str)
deriving DecidableEq

/-- What happened to the one child process of an `executeProgram` call:
the error (if any) of the start/copy/wait pipeline (`cmd.Output()` in
text mode, `StdoutPipe`/`Start`/`io.Copy`/`Wait` in hash mode), the
bytes the child wrote to standard output, whether the deadline context
had expired (`ctx.Err() == context.DeadlineExceeded`) when the error was
classified, and the measured `time.Since(start)`. -/
structure ProcEnv where
  runErr : Option Str
  stdout : Str
  deadlineExceeded : Bool
  elapsed : Nat

/-- `executeProgram` (main.go lines 181-229): read the input file (a
failure is wrapped and returned with zero elapsed time, before the
deadline context exists); run the child; on error, return
`context.DeadlineExceeded` when the context deadline had expired and a
wrapped execution error otherwise; on success return the captured
stdout, or in hash mode its hex-encoded SHA-256 digest. -/
def executeProgram (hash : Bool) (inputRead : Except Str Str) (proc : ProcEnv) :
    Except ExecError Str × Nat :=
  match inputRead with
  | .error e => (.error (.execError ("failed to read input file: ".toList ++ e)), 0)
  | .ok _ =>
    match proc.runErr with
    | some e =>
      if proc.deadlineExceeded then
        (.error .timeout, proc.elapsed)
      else
        (.error (.execError ("program execution failed: ".toList ++ e)), proc.elapsed)
    | none =>
      (.ok (if hash then sha256hex proc.stdout else proc.stdout), proc.elapsed)

/-! ## The per-test driver (main.go lines 78-159) -/

/-- The per-test classification printed by main.go: `AC`, `WA`, `TLE`,
`ERR` (split by its three distinct messages: execution, reading the
expected file, writing the output file), `GEN` and `SKIP`. -/
inductive Verdict where
  | accepted
  | wrongAnswer
  | tle
  | runError
  | readError
  | writeError
  | generated
  | skipped
deriving DecidableEq

/-- The run flags relevant to the engine: `-h`, `-g`, `-f`. -/
structure Config where
  hash : Bool
  generate : Bool
  force : Bool

/-- The environment of one test case: the child-process behaviour for
its `executeProgram` call, plus the fate of `writeFile` (main.go lines
232-241): whether `os.Create` succeeds, whether `WriteString` then
succeeds, and the bytes left on disk when `WriteString` fails after a
successful create. -/
structure TestEnv where
  proc : ProcEnv
  createOk : Bool
  writeOk : Bool
  partialContent : Str

/-- The outcome of one iteration of the test loop. -/
structure StepResult where
  verdict : Verdict
  time : Nat
  fs : FS
  executed : Bool

/-- One check-mode iteration (main.go lines 110-158): execute, classify
failures, read the expected file, compare with `strings.TrimSpace` on
both sides. -/
def checkStep (hash : Bool) (env : TestEnv) (fs : FS) (inputFile : Str) : StepResult :=
  match executeProgram hash (readFileFS fs inputFile) env.proc with
  | (.error .timeout, t) => ⟨.tle, t, fs, true⟩
  | (.error (.execError _), t) => ⟨.runError, t, fs, true⟩
  | (.ok actual, t) =>
    match readFileFS fs (resolveExpectedPath hash inputFile) with
    | .error _ => ⟨.readError, t, fs, true⟩
    | .ok expected =>
      if trimSpace actual = trimSpace expected then
        ⟨.accepted, t, fs, true⟩
      else
        ⟨.wrongAnswer, t, fs, true⟩

/-- One generate-mode iteration (main.go lines 85-109): stat the
expected file; when `os.IsNotExist(err) || force`, execute and persist
the output via `writeFile` (`os.Create` then `WriteString`); otherwise
skip. -/
def genStep (hash force : Bool) (env : TestEnv) (fs : FS) (inputFile : Str) : StepResult :=
  let outputFile := resolveExpectedPath hash inputFile
  if statOf (fs outputFile) = .notExist ∨ force then
    match executeProgram hash (readFileFS fs inputFile) env.proc with
    | (.error .timeout, t) => ⟨.tle, t, fs, true⟩
    | (.error (.execError _), t) => ⟨.runError, t, fs, true⟩
    | (.ok actual, t) =>
      if env.createOk then
        if env.writeOk then
          ⟨.generated, t, updateFS fs outputFile (.present actual), true⟩
        else
          ⟨.writeError, t, updateFS fs outputFile (.present env.partialContent), true⟩
      else
        ⟨.writeError, t, fs, true⟩
  else
    ⟨.skipped, 0, fs, false⟩

/-- One iteration of main.go's loop, dispatching on `-g`. -/
def runStep (cfg : Config) (env : TestEnv) (fs : FS) (inputFile : Str) : StepResult :=
  if cfg.generate then genStep cfg.hash cfg.force env fs inputFile
  else checkStep cfg.hash env fs inputFile

/-- The aggregate counters of one run: `passedTests`, `generatedFiles`
and `totalExecutionTime` (main.go lines 73-76). -/
structure Totals where
  passed : Nat
  generated : Nat
  time : Nat
deriving DecidableEq

/-- The increment of `passedTests` for one verdict: main.go increments
it on `AC` (line 134, check mode) and on `SKIP` (line 108, generate
mode) only. -/
def passedInc (cfg : Config) (v : Verdict) : Nat :=
  if cfg.generate then (if v = .skipped then 1 else 0)
  else (if v = .accepted then 1 else 0)

/-- The increment of `generatedFiles` for one verdict (main.go line 104). -/
def generatedInc (v : Verdict) : Nat :=
  if v = .generated then 1 else 0

/-- The outcome of a whole run over a list of input files. -/
structure RunResult where
  verdicts : List Verdict
  totals : Totals
  fs : FS

/-- main.go's loop over all matched input files (lines 78-159), with
the per-test environments given by `envs`. -/
def runTests (cfg : Config) (envs : Str → TestEnv) : List Str → FS → RunResult
  | [], fs => ⟨[], ⟨0, 0, 0⟩, fs⟩
  | f :: rest, fs =>
    let s := runStep cfg (envs f) fs f
    let r := runTests cfg envs rest s.fs
    ⟨s.verdict :: r.verdicts,
     ⟨passedInc cfg s.verdict + r.totals.passed,
      generatedInc s.verdict + r.totals.generated,
      s.time + r.totals.time⟩,
     r.fs⟩

/-- The end-of-run average execution time (main.go lines 169-171):
printed only when `totalTests > 0`, as the duration quotient
`totalExecutionTime / totalTests`. -/
def avgExecutionTime (totalTime totalTests : Nat) : Option Nat :=
  if totalTests > 0 then some (totalTime / totalTests) else none

/-- The process exit code of `main` as a function of the positional
arguments and the glob result: `os.Exit(1)` after the usage text when
fewer than two arguments are given (lines 41-50), `log.Fatalf` (exit
code 1) on a glob error (lines 62-64), and a normal return (exit code
0) in every other case, including zero matches (lines 66-69). -/
def mainExitCode (args : List Str) (globResult : Except Str (List Str)) : Nat :=
  if args.length < 2 then 1
  else
    match globResult with
    | .error _ => 1
    | .ok _ => 0

/-! ## Specification-side description of `readFile` -/

/-- Split at every `'\n'`; a trailing separator yields a final empty
segment, the empty string yields one empty segment. -/
def splitNL : Str → List Str
  | [] => [[]]
  | c :: rest =>
    if c = '\n' then [] :: splitNL rest
    else
      match splitNL rest with
      | [] => [[c]]
      | s :: ss => (c :: s) :: ss

/-- Drop a final empty segment, when there is one. -/
def dropTrailingEmpty (segs : List Str) : List Str :=
  if segs.getLast? = some [] then segs.dropLast else segs

/-- Join lines with a single `'\n'` between consecutive lines. -/
def joinLines : List Str → Str
  | [] => []
  | [x] => x
  | x :: y :: rest => x ++ '\n' :: joinLines (y :: rest)

/-- Specification-side restatement of the `readFile` content
transformation: split the content at every `'\n'`, drop the final empty
segment produced by a terminating newline, strip one trailing `'\r'`
from each line (a final unterminated line included), and rejoin the
lines with `'\n'`. -/
def readFileSpec (content : Str) : Str :=
  joinLines ((dropTrailingEmpty (splitNL content)).map dropCR)

/-! # Theorems -/

/-- C7: the expected-output path derivation is a pure string transform:
for every input path it strips one trailing `".in"` suffix if present
and appends `".out"` (default) or `".hash"` (hash mode); if the suffix
is absent the extension is appended to the unchanged path. -/
theorem claim_C7_resolveExpectedPath (hash : Bool) (p q : Str) :
    (p = q ++ ".in".toList →
      resolveExpectedPath hash p =
        q ++ (if hash then ".hash".toList else ".out".toList)) ∧
    ((".in".toList).isSuffixOf p = false →
      resolveExpectedPath hash p =
        p ++ (if hash then ".hash".toList else ".out".toList)) := by
  constructor
  · rintro rfl
    have hsuf : (".in".toList).isSuffixOf (q ++ ".in".toList) = true := by
      simp [List.isSuffixOf_iff_suffix]
    unfold resolveExpectedPath trimSuffix
    rw [hsuf]
    simp only [if_pos, List.length_append, Nat.add_sub_cancel, List.take_left, if_true]
  · intro hnot
    unfold resolveExpectedPath trimSuffix
    rw [hnot]
    simp

/-- Witness for C7 at concrete paths `"a.in"` and `"b"`. -/
theorem claim_C7_resolveExpectedPath_witness :
    resolveExpectedPath false "a.in".toList = "a.out".toList ∧
    resolveExpectedPath true "b".toList = "b.hash".toList := by
  constructor
  · have h := (claim_C7_resolveExpectedPath false "a.in".toList "a".toList).1
    simpa using h (by decide)
  · have h := (claim_C7_resolveExpectedPath true "b".toList "b".toList).2
    simpa using h (by decide)

/-- C2: in `executeProgram`, a pipeline error with the deadline context
expired is returned as `context.DeadlineExceeded` (Timeout), never as a
wrapped execution error; a pipeline error without deadline expiry is a
wrapped ExecutionError carrying the underlying message; and an
input-file read failure is a wrapped ExecutionError as well. -/
theorem claim_C2_executeProgram_classification (hash : Bool) (inp e : Str) (proc : ProcEnv) :
    (proc.runErr = some e → proc.deadlineExceeded = true →
      executeProgram hash (.ok inp) proc = (.error .timeout, proc.elapsed)) ∧
    (proc.runErr = some e → proc.deadlineExceeded = false →
      executeProgram hash (.ok inp) proc =
        (.error (.execError ("program execution failed: ".toList ++ e)), proc.elapsed)) ∧
    (∀ msg, executeProgram hash (.error msg) proc =
      (.error (.execError ("failed to read input file: ".toList ++ msg)), 0)) := by
  refine ⟨fun h hd => ?_, fun h hd => ?_, fun msg => rfl⟩ <;>
    simp [executeProgram, h, hd]

/-- Witness for C2: a concrete failing process, with and without
deadline expiry. -/
theorem claim_C2_executeProgram_classification_witness :
    executeProgram false (.ok "1".toList) ⟨some "killed".toList, [], true, 7⟩ =
      (.error .timeout, 7) ∧
    executeProgram false (.ok "1".toList) ⟨some "exit status 1".toList, [], false, 5⟩ =
      (.error (.execError ("program execution failed: exit status 1".toList)), 5) := by
  constructor
  · exact (claim_C2_executeProgram_classification false "1".toList "killed".toList
      ⟨some "killed".toList, [], true, 7⟩).1 rfl rfl
  · have h := (claim_C2_executeProgram_classification false "1".toList
      "exit status 1".toList ⟨some "exit status 1".toList, [], false, 5⟩).2.1 rfl rfl
    simpa using h

/-- C10: in generate mode without force, the test is skipped (and the
executor not invoked) whenever `os.Stat` on the expected path returns
anything other than a does-not-exist error — including other stat
failures; the executor runs, and the filesystem can change, only when
stat reports non-existence or force is set. -/
theorem claim_C10_generate_stat_guard (hash force : Bool) (env : TestEnv) (fs : FS) (f : Str) :
    (force = false → statOf (fs (resolveExpectedPath hash f)) ≠ .notExist →
      genStep hash force env fs f = ⟨.skipped, 0, fs, false⟩) ∧
    ((genStep hash force env fs f).executed = true ↔
      statOf (fs (resolveExpectedPath hash f)) = .notExist ∨ force = true) ∧
    (∀ p, (genStep hash force env fs f).fs p ≠ fs p →
      statOf (fs (resolveExpectedPath hash f)) = .notExist ∨ force = true) := by
  by_cases hc : statOf (fs (resolveExpectedPath hash f)) = .notExist ∨ force = true
  · refine ⟨fun hf hne => ?_, ?_, fun p _ => hc⟩
    · rcases hc with hc | hc
      · exact absurd hc hne
      · exact absurd hc (by simp [hf])
    · unfold genStep
      rw [if_pos (by tauto)]
      rcases hx : executeProgram hash (readFileFS fs f) env.proc with ⟨r, t⟩
      rcases r with r | a
      · rcases r <;> simp [hc]
      · by_cases hco : env.createOk <;> by_cases hw : env.writeOk <;> simp [hco, hw, hc]
  · push_neg at hc
    have hstep : genStep hash force env fs f = ⟨.skipped, 0, fs, false⟩ := by
      unfold genStep
      rw [if_neg (by tauto)]
    refine ⟨fun _ _ => hstep, ?_, fun p hp => ?_⟩
    · rw [hstep]
      simpa using hc
    · rw [hstep] at hp
      exact absurd rfl hp

/-- Witness for C10: a concrete inaccessible expected path without
force is skipped. -/
theorem claim_C10_generate_stat_guard_witness :
    genStep false false ⟨⟨none, [], false, 0⟩, true, true, []⟩
      (fun _ => FileState.inaccessible) "a.in".toList =
      ⟨.skipped, 0, fun _ => FileState.inaccessible, false⟩ := by
  exact (claim_C10_generate_stat_guard false false ⟨⟨none, [], false, 0⟩, true, true, []⟩
    (fun _ => FileState.inaccessible) "a.in".toList).1 rfl (by decide)

/-- C1: in check mode, when execution succeeds and the expected file is
read successfully, the verdict is Accepted exactly when the
`TrimSpace`-trimmed actual output equals the trimmed expected output
(internal content compared exactly), and any inequality yields
WrongAnswer. -/
theorem claim_C1_check_verdict (hash : Bool) (env : TestEnv) (fs : FS) (f a e : Str) (t : Nat)
    (hexec : executeProgram hash (readFileFS fs f) env.proc = (.ok a, t))
    (hread : readFileFS fs (resolveExpectedPath hash f) = .ok e) :
    ((checkStep hash env fs f).verdict = .accepted ↔ trimSpace a = trimSpace e) ∧
    (trimSpace a ≠ trimSpace e → (checkStep hash env fs f).verdict = .wrongAnswer) := by
  unfold checkStep
  rw [hexec, hread]
  by_cases hc : trimSpace a = trimSpace e <;> simp [hc]

/-- Witness for C1: a concrete accepted test whose outputs differ only
in surrounding whitespace. -/
theorem claim_C1_check_verdict_witness :
    (checkStep false ⟨⟨none, "2".toList, false, 5⟩, true, true, []⟩
      (fun p => if p = "a.in".toList then .present "1".toList
                else if p = "a.out".toList then .present " 2 ".toList
                else .absent) "a.in".toList).verdict = .accepted := by
  exact (claim_C1_check_verdict false ⟨⟨none, "2".toList, false, 5⟩, true, true, []⟩
    (fun p => if p = "a.in".toList then .present "1".toList
              else if p = "a.out".toList then .present " 2 ".toList
              else .absent) "a.in".toList "2".toList " 2 ".toList 5
    rfl rfl).1.mpr (by decide)

/-- C6 fails as stated: with two positional arguments and an invalid
glob pattern, `log.Fatalf` terminates the process with exit code 1, so
exit code 1 is not equivalent to "fewer than two arguments". -/
theorem claim_C6_counterexample :
    mainExitCode [['p'], ['g']] (.error "syntax error in pattern".toList) = 1 ∧
    ¬(([['p'], ['g']] : List Str).length < 2) := by
  exact ⟨rfl, by decide⟩

/-- C6 (amended): the exit code is 1 exactly when fewer than two
positional arguments are supplied (after usage text) or the glob
pattern is invalid (`log.Fatalf`); in every other case — including zero
matching input files — the exit code is 0. -/
theorem claim_C6_exit_code (args : List Str) (globResult : Except Str (List Str)) :
    (mainExitCode args globResult = 1 ↔
      args.length < 2 ∨ ∃ e, globResult = .error e) ∧
    (mainExitCode args globResult = 0 ↔
      ¬(args.length < 2 ∨ ∃ e, globResult = .error e)) := by
  unfold mainExitCode
  rcases globResult with e | l <;> by_cases h : args.length < 2 <;> simp [h]

/-- Witness for C6 (amended): two arguments and zero glob matches exit
with code 0. -/
theorem claim_C6_exit_code_witness :
    mainExitCode [['p'], ['g']] (.ok []) = 0 := by
  exact (claim_C6_exit_code [['p'], ['g']] (.ok [])).2.mpr (by
    rintro (h | ⟨e, h⟩) <;> simp_all)

/-- C5 fails as stated: a generate run whose single test is freshly
generated has `passedTests = 0`, not `Generated + Skipped = 1`; the
`passedTests` counter only counts skips in generate mode. -/
theorem claim_C5_counterexample :
    (runTests ⟨false, true, false⟩
        (fun _ => ⟨⟨none, "4".toList, false, 3⟩, true, true, []⟩)
        ["a.in".toList]
        (fun p => if p = "a.in".toList then .present "3".toList else .absent)).verdicts =
      [.generated] ∧
    (runTests ⟨false, true, false⟩
        (fun _ => ⟨⟨none, "4".toList, false, 3⟩, true, true, []⟩)
        ["a.in".toList]
        (fun p => if p = "a.in".toList then .present "3".toList else .absent)).totals.passed
      = 0 := by
  constructor <;> rfl

/-- `runTests` on a cons: the verdict list. -/
theorem runTests_cons_verdicts (cfg : Config) (envs : Str → TestEnv) (f : Str)
    (rest : List Str) (fs : FS) :
    (runTests cfg envs (f :: rest) fs).verdicts =
      (runStep cfg (envs f) fs f).verdict ::
        (runTests cfg envs rest (runStep cfg (envs f) fs f).fs).verdicts := rfl

/-- `runTests` on a cons: the `passedTests` counter. -/
theorem runTests_cons_passed (cfg : Config) (envs : Str → TestEnv) (f : Str)
    (rest : List Str) (fs : FS) :
    (runTests cfg envs (f :: rest) fs).totals.passed =
      passedInc cfg (runStep cfg (envs f) fs f).verdict +
        (runTests cfg envs rest (runStep cfg (envs f) fs f).fs).totals.passed := rfl

/-- `runTests` on a cons: the `generatedFiles` counter. -/
theorem runTests_cons_generated (cfg : Config) (envs : Str → TestEnv) (f : Str)
    (rest : List Str) (fs : FS) :
    (runTests cfg envs (f :: rest) fs).totals.generated =
      generatedInc (runStep cfg (envs f) fs f).verdict +
        (runTests cfg envs rest (runStep cfg (envs f) fs f).fs).totals.generated := rfl

/-- `runTests` on a cons: the cumulative execution time. -/
theorem runTests_cons_time (cfg : Config) (envs : Str → TestEnv) (f : Str)
    (rest : List Str) (fs : FS) :
    (runTests cfg envs (f :: rest) fs).totals.time =
      (runStep cfg (envs f) fs f).time +
        (runTests cfg envs rest (runStep cfg (envs f) fs f).fs).totals.time := rfl

/-- `runTests` on a cons: the final filesystem. -/
theorem runTests_cons_fs (cfg : Config) (envs : Str → TestEnv) (f : Str)
    (rest : List Str) (fs : FS) :
    (runTests cfg envs (f :: rest) fs).fs =
      (runTests cfg envs rest (runStep cfg (envs f) fs f).fs).fs := rfl

/-- C5 (amended): the `passedTests` counter equals, in check mode, the
number of Accepted verdicts; in generate mode it equals the number of
Skipped verdicts (reported as "already exist"), while the Generated
verdicts are counted by the separate `generatedFiles` counter. -/
theorem claim_C5_passed_count (cfg : Config) (envs : Str → TestEnv) :
    ∀ (files : List Str) (fs : FS),
      (cfg.generate = false →
        (runTests cfg envs files fs).totals.passed =
          (runTests cfg envs files fs).verdicts.count .accepted) ∧
      ((runTests cfg envs files fs).totals.generated =
        (runTests cfg envs files fs).verdicts.count .generated) ∧
      (cfg.generate = true →
        (runTests cfg envs files fs).totals.passed =
          (runTests cfg envs files fs).verdicts.count .skipped) := by
  intro files
  induction files with
  | nil => intro fs; exact ⟨fun _ => rfl, rfl, fun _ => rfl⟩
  | cons f rest ih =>
    intro fs
    obtain ⟨ih1, ih2, ih3⟩ := ih (runStep cfg (envs f) fs f).fs
    refine ⟨fun hg => ?_, ?_, fun hg => ?_⟩
    · rw [runTests_cons_passed, runTests_cons_verdicts, List.count_cons, ih1 hg]
      simp only [passedInc, hg, Bool.false_eq_true, if_false]
      by_cases hv : (runStep cfg (envs f) fs f).verdict = .accepted <;>
        simp [hv] <;> omega
    · rw [runTests_cons_generated, runTests_cons_verdicts, List.count_cons, ih2]
      simp only [generatedInc]
      by_cases hv : (runStep cfg (envs f) fs f).verdict = .generated <;>
        simp [hv] <;> omega
    · rw [runTests_cons_passed, runTests_cons_verdicts, List.count_cons, ih3 hg]
      simp only [passedInc, hg, if_true]
      by_cases hv : (runStep cfg (envs f) fs f).verdict = .skipped <;>
        simp [hv] <;> omega

/-- Witness for C5 (amended): in the counterexample run the skip and
generated counters match the verdict counts. -/
theorem claim_C5_passed_count_witness :
    (runTests ⟨false, true, false⟩
        (fun _ => ⟨⟨none, "4".toList, false, 3⟩, true, true, []⟩)
        ["a.in".toList]
        (fun p => if p = "a.in".toList then .present "3".toList else .absent)).totals.generated
      =
    (runTests ⟨false, true, false⟩
        (fun _ => ⟨⟨none, "4".toList, false, 3⟩, true, true, []⟩)
        ["a.in".toList]
        (fun p => if p = "a.in".toList then .present "3".toList else .absent)).verdicts.count
      .generated := by
  exact (claim_C5_passed_count ⟨false, true, false⟩
    (fun _ => ⟨⟨none, "4".toList, false, 3⟩, true, true, []⟩)
    ["a.in".toList]
    (fun p => if p = "a.in".toList then .present "3".toList else .absent)).2.1

/-- A check-mode step leaves the filesystem unchanged and always charges
the elapsed time measured by `executeProgram`. -/
theorem checkStep_fs_time (hash : Bool) (env : TestEnv) (fs : FS) (f : Str) :
    (checkStep hash env fs f).fs = fs ∧
    (checkStep hash env fs f).time =
      (executeProgram hash (readFileFS fs f) env.proc).2 := by
  unfold checkStep
  rcases h : executeProgram hash (readFileFS fs f) env.proc with ⟨r, t⟩
  rcases r with r | a
  · rcases r <;> simp
  · rcases hr : readFileFS fs (resolveExpectedPath hash f) with e | ex
    · simp [hr]
    · by_cases hc : trimSpace a = trimSpace ex <;> simp [hr, hc]

/-- C8: in check mode the cumulative execution time is the sum of every
test's elapsed time — failed executions included, since the elapsed
time is charged before the error branches — and the end-of-run average
is the cumulative time divided by the number of tests, the division
being guarded when that number is zero. -/
theorem claim_C8_timing (cfg : Config) (envs : Str → TestEnv) (files : List Str) (fs : FS)
    (h : cfg.generate = false) :
    (runTests cfg envs files fs).totals.time =
      (files.map (fun f => (executeProgram cfg.hash (readFileFS fs f) (envs f).proc).2)).sum ∧
    (files ≠ [] →
      avgExecutionTime (runTests cfg envs files fs).totals.time files.length =
        some ((runTests cfg envs files fs).totals.time / files.length)) ∧
    (∀ T, avgExecutionTime T 0 = none) := by
  refine ⟨?_, fun hne => ?_, fun T => rfl⟩
  · induction files with
    | nil => rfl
    | cons f rest ih =>
      have hstep := checkStep_fs_time cfg.hash (envs f) fs f
      have hrun : runStep cfg (envs f) fs f = checkStep cfg.hash (envs f) fs f := by
        unfold runStep
        rw [h]
        simp
      rw [runTests_cons_time, List.map_cons, List.sum_cons, hrun, hstep.1, hstep.2, ih]
  · unfold avgExecutionTime
    rw [if_pos (List.length_pos.mpr hne)]

/-- Witness for C8: a run whose single test times out still accumulates
its 9 units of elapsed time, and the average over zero tests is
guarded. -/
theorem claim_C8_timing_witness :
    (runTests ⟨false, false, false⟩
        (fun _ => ⟨⟨some "killed".toList, [], true, 9⟩, true, true, []⟩)
        ["a.in".toList] (fun _ => .present "1".toList)).totals.time = 9 ∧
    avgExecutionTime 17 0 = none := by
  have h := claim_C8_timing ⟨false, false, false⟩
    (fun _ => ⟨⟨some "killed".toList, [], true, 9⟩, true, true, []⟩)
    ["a.in".toList] (fun _ => .present "1".toList) rfl
  exact ⟨h.1.trans (by rfl), h.2.2 17⟩

/-- `splitNL` always produces at least one segment. -/
theorem splitNL_ne_nil (l : Str) : splitNL l ≠ [] := by
  induction l with
  | nil => simp [splitNL]
  | cons c rest ih =>
    unfold splitNL
    by_cases hc : c = '\n'
    · simp [hc]
    · rw [if_neg hc]
      rcases h : splitNL rest with _ | ⟨s, ss⟩ <;> simp

/-- Content without a newline forms a single segment. -/
theorem splitNL_no_nl (l : Str) (h : '\n' ∉ l) : splitNL l = [l] := by
  induction l with
  | nil => rfl
  | cons c rest ih =>
    have hc : c ≠ '\n' := fun e => h (by simp [e])
    have hr : '\n' ∉ rest := fun m => h (List.mem_cons_of_mem _ m)
    unfold splitNL
    rw [if_neg hc, ih hr]

/-- Splitting at the first newline peels off the first segment. -/
theorem splitNL_append_nl (before after : Str) (h : ∀ x ∈ before, x ≠ '\n') :
    splitNL (before ++ '\n' :: after) = before :: splitNL after := by
  induction before with
  | nil => simp [splitNL]
  | cons c rest ih =>
    have hc : c ≠ '\n' := h c (by simp)
    have hr : ∀ x ∈ rest, x ≠ '\n' := fun x hx => h x (by simp [hx])
    simp only [List.cons_append]
    rw [splitNL, if_neg hc, ih hr]

/-- `dropTrailingEmpty` only inspects the last segment. -/
theorem dropTrailingEmpty_cons (x : Str) (ss : List Str) (h : ss ≠ []) :
    dropTrailingEmpty (x :: ss) = x :: dropTrailingEmpty ss := by
  rcases ss with _ | ⟨y, ss'⟩
  · exact absurd rfl h
  · unfold dropTrailingEmpty
    rw [List.getLast?_cons_cons]
    by_cases hl : (y :: ss').getLast? = some ([] : Str)
    · rw [if_pos hl, if_pos hl, List.dropLast_cons₂]
    · rw [if_neg hl, if_neg hl]

/-- The first element left by `dropWhile` fails the predicate. -/
theorem dropWhile_head_not (p : α → Bool) (l : List α) (x : α) (xs : List α)
    (h : l.dropWhile p = x :: xs) : p x = false := by
  induction l with
  | nil => simp at h
  | cons a as ih =>
    rw [List.dropWhile_cons] at h
    by_cases hp : p a = true
    · rw [if_pos hp] at h
      exact ih h
    · rw [if_neg hp] at h
      injection h with h1 _
      subst h1
      simpa using hp

/-- `takeWhile` stops exactly at the first newline. -/
theorem takeWhile_segment (B dt : Str) (h : ∀ x ∈ B, x ≠ '\n') :
    (B ++ '\n' :: dt).takeWhile (fun a => a ≠ '\n') = B := by
  rw [List.takeWhile_append_of_pos (by simpa using h)]
  simp

/-- Dropping the first segment and its newline leaves the tail. -/
theorem drop_segment (B dt : Str) : (B ++ '\n' :: dt).drop (B.length + 1) = dt := by
  have h2 : B ++ '\n' :: dt = (B ++ ['\n']) ++ dt := by simp
  rw [h2]
  exact List.drop_left' (by simp)

/-- One round of the scanner loop on content whose first newline sits
right after the newline-free prefix `B`. -/
theorem scanLoop_append_nl (f : Nat) (B dt : Str) (h : ∀ x ∈ B, x ≠ '\n') :
    scanLoop (f + 1) (B ++ '\n' :: dt) = dropCR B :: scanLoop f dt := by
  rcases B with _ | ⟨b, B'⟩
  · simp only [List.nil_append, scanLoop]
    rw [List.takeWhile_cons_of_neg (by simp)]
    rw [if_neg (by simp)]
    simp
  · have hb : b ≠ '\n' := h b (by simp)
    have hB' : ∀ x ∈ B', x ≠ '\n' := fun x hx => h x (by simp [hx])
    rw [List.cons_append]
    simp only [scanLoop]
    rw [List.takeWhile_cons_of_pos (by simpa using hb), takeWhile_segment B' dt hB']
    rw [if_neg (by simp only [List.length_cons, List.length_append]; omega)]
    rw [← List.cons_append, drop_segment]

/-- The scanner loop agrees with the split-based description whenever
its fuel exceeds the content length. -/
theorem scanLoop_eq_spec : ∀ (fuel : Nat) (l : Str), l.length < fuel →
    scanLoop fuel l = (dropTrailingEmpty (splitNL l)).map dropCR := by
  intro fuel
  induction fuel with
  | zero => intro l hl; omega
  | succ f ih =>
    intro l hl
    match l with
    | [] => rfl
    | c :: rest =>
      have hball : ∀ x ∈ (c :: rest).takeWhile (fun a => a ≠ '\n'), x ≠ '\n' := by
        intro x hx
        have hall := List.all_eq_true.mp
          (List.all_takeWhile (l := c :: rest) (p := fun a => decide (a ≠ '\n'))) x hx
        exact of_decide_eq_true hall
      have hsplit := List.takeWhile_append_dropWhile (p := fun a => a ≠ '\n') (l := c :: rest)
      by_cases hlen :
          ((c :: rest).takeWhile (fun a => a ≠ '\n')).length = (c :: rest).length
      · have hdlen := congrArg List.length hsplit
        rw [List.length_append] at hdlen
        have hdnil : (c :: rest).dropWhile (fun a => a ≠ '\n') = [] :=
          List.eq_nil_of_length_eq_zero (by omega)
        have hbl : (c :: rest).takeWhile (fun a => a ≠ '\n') = c :: rest := by
          rw [hdnil, List.append_nil] at hsplit
          exact hsplit
        have hnl : '\n' ∉ (c :: rest) := fun m => (hball _ (by rw [hbl]; exact m)) rfl
        simp only [scanLoop]
        rw [if_pos hlen, splitNL_no_nl _ hnl]
        unfold dropTrailingEmpty
        rw [if_neg (by simp)]
        rfl
      · have hdne : (c :: rest).dropWhile (fun a => a ≠ '\n') ≠ [] := by
          intro hnil
          rw [hnil, List.append_nil] at hsplit
          exact hlen (congrArg List.length hsplit)
        obtain ⟨dh, dt, hd2⟩ := List.exists_cons_of_ne_nil hdne
        have hdh : dh = '\n' := by
          have hp := dropWhile_head_not (fun a => decide (a ≠ '\n')) (c :: rest) dh dt hd2
          simpa using hp
        rw [hdh] at hd2
        have hl2 : c :: rest = (c :: rest).takeWhile (fun a => a ≠ '\n') ++ '\n' :: dt := by
          conv_lhs => rw [← hsplit]
          rw [hd2]
        have hdt : dt.length < f := by
          have hlc := congrArg List.length hl2
          rw [List.length_append] at hlc
          simp only [List.length_cons] at hlc hl
          omega
        rw [hl2, scanLoop_append_nl f _ dt hball, splitNL_append_nl _ dt hball,
          dropTrailingEmpty_cons _ _ (splitNL_ne_nil dt), List.map_cons, ih dt hdt]

/-- One trailing `'\n'` is trimmed from the flattened token lines. -/
theorem trimSuffix_append (x s : Str) : trimSuffix (x ++ s) s = x := by
  have hsuf : s.isSuffixOf (x ++ s) = true := by simp [List.isSuffixOf_iff_suffix]
  unfold trimSuffix
  simp only [hsuf, if_true, List.length_append, Nat.add_sub_cancel, List.take_left]

/-- Flattening non-empty token lines appends one final `'\n'` to the
`'\n'`-joined lines. -/
theorem flatten_lines_eq (x : Str) (ts : List Str) :
    (((x :: ts).map (fun t => t ++ ['\n'])).flatten) = joinLines (x :: ts) ++ ['\n'] := by
  induction ts generalizing x with
  | nil => simp [joinLines]
  | cons y ts ih =>
    simp only [List.map_cons, List.flatten_cons] at *
    rw [ih y]
    simp [joinLines]

/-- C9 fails as stated: a file ending in an empty line yields a result
that ends in a newline, and a line ending in two carriage returns keeps
one of them, leaving a `"\r\n"` line ending in the result. -/
theorem claim_C9_counterexample :
    (readFileNorm ("a\n\n".toList)).getLast? = some '\n' ∧
    readFileNorm ("a\r\r\nb".toList) = "a\r\nb".toList := by
  exact ⟨rfl, rfl⟩

/-- The `readFile` content transformation coincides with its
split-based description. -/
theorem readFileNorm_eq_spec (content : Str) :
    readFileNorm content = readFileSpec content := by
  unfold readFileNorm readFileSpec scanTokens
  rw [scanLoop_eq_spec _ _ (Nat.lt_succ_self _)]
  rcases h : (dropTrailingEmpty (splitNL content)).map dropCR with _ | ⟨x, ts⟩
  · rfl
  · rw [flatten_lines_eq, trimSuffix_append]

/-- C9 (amended): `readFile` reconstructs the content line by line —
split at every `'\n'`, drop the final empty segment of a terminating
newline, strip exactly one trailing `'\r'` per line (a final
unterminated line included), and rejoin with `'\n'`.  The result can
therefore still end in `'\n'` (file ending in an empty line) and can
still contain `"\r\n"` (line ending in repeated `'\r'`). -/
theorem claim_C9_readFile_reconstruction (content : Str) :
    readFileNorm content = readFileSpec content :=
  readFileNorm_eq_spec content

/-- No hexadecimal digit is white space, a newline or a carriage
return. -/
theorem hexDigit_prop (n : Nat) :
    goIsSpace (hexDigit n) = false ∧ hexDigit n ≠ '\n' ∧ hexDigit n ≠ '\r' := by
  by_cases h : n < 16
  · interval_cases n <;> decide
  · have hd : hexDigit n = '0' := by
      unfold hexDigit
      rw [List.getD_eq_getElem?_getD, List.getElem?_eq_none ?hlen]
      · rfl
      case hlen =>
        have hl : ("0123456789abcdef".toList).length = 16 := rfl
        omega
    rw [hd]
    exact ⟨rfl, by decide, by decide⟩

/-- Every character of a hex encoding is a hexadecimal digit, hence
neither white space nor a line terminator. -/
theorem hexEncode_chars (bs : List Nat) (c : Char) (hc : c ∈ hexEncode bs) :
    goIsSpace c = false ∧ c ≠ '\n' ∧ c ≠ '\r' := by
  unfold hexEncode at hc
  rw [List.mem_flatMap] at hc
  obtain ⟨b, _, hc⟩ := hc
  simp only [List.mem_cons, List.not_mem_nil, or_false] at hc
  rcases hc with hc | hc <;> (subst hc; exact hexDigit_prop _)

/-- `dropWhile` is the identity when no element satisfies the
predicate. -/
theorem dropWhile_all_false (p : α → Bool) (l : List α) (h : ∀ c ∈ l, p c = false) :
    l.dropWhile p = l := by
  cases l with
  | nil => rfl
  | cons a as =>
    exact List.dropWhile_cons_of_neg (by simp [h a (List.mem_cons_self a as)])

/-- `strings.TrimSpace` does not change a string free of white
space. -/
theorem trimSpace_no_space (s : Str) (h : ∀ c ∈ s, goIsSpace c = false) :
    trimSpace s = s := by
  unfold trimSpace
  rw [dropWhile_all_false _ _ h,
    dropWhile_all_false _ _ (fun c hc => h c (List.mem_reverse.mp hc)),
    List.reverse_reverse]

/-- The length of a hex encoding. -/
theorem hexEncode_length (bs : List Nat) : (hexEncode bs).length = 2 * bs.length := by
  induction bs with
  | nil => rfl
  | cons b bs ih =>
    unfold hexEncode at *
    rw [List.flatMap_cons, List.length_append, ih]
    simp only [List.length_cons, List.length_nil]
    omega

/-- A SHA-256 digest consists of 32 bytes. -/
theorem hashBytes_length (s : Hash8) : (hashBytes s).length = 32 := by
  unfold hashBytes
  simp

/-- The hex digest string is never empty. -/
theorem sha256hex_ne_nil (s : Str) : sha256hex s ≠ [] := by
  have hlen : (sha256hex s).length = 64 := by
    unfold sha256hex sha256
    rw [hexEncode_length, hashBytes_length]
  exact List.ne_nil_of_length_pos (by omega)

/-- `readFile` returns a hex digest unchanged: the digest has no
newline and does not end in a carriage return. -/
theorem readFileNorm_sha256hex (s : Str) : readFileNorm (sha256hex s) = sha256hex s := by
  rw [readFileNorm_eq_spec]
  unfold readFileSpec
  have hnl : '\n' ∉ sha256hex s := fun hm =>
    (hexEncode_chars _ _ hm).2.1 rfl
  rw [splitNL_no_nl _ hnl]
  unfold dropTrailingEmpty
  rw [if_neg (by simp [sha256hex_ne_nil s])]
  have hcr : dropCR (sha256hex s) = sha256hex s := by
    unfold dropCR
    rw [if_neg ?hne]
    case hne =>
      intro hlast
      exact (hexEncode_chars _ _ (List.mem_of_getLast?_eq_some hlast)).2.2 rfl
  rw [List.map_cons, List.map_nil, hcr]
  rfl

/-- `strings.TrimSpace` leaves a hex digest unchanged. -/
theorem trimSpace_sha256hex (s : Str) : trimSpace (sha256hex s) = sha256hex s :=
  trimSpace_no_space _ (fun c hc => (hexEncode_chars _ c hc).1)

/-- The expected-output path never coincides with the input path: the
appended extension is strictly longer than the stripped suffix. -/
theorem resolveExpectedPath_ne (hash : Bool) (f : Str) : resolveExpectedPath hash f ≠ f := by
  intro h
  have hlen := congrArg List.length h
  unfold resolveExpectedPath trimSuffix at hlen
  have hext : (if hash then ".hash".toList else ".out".toList).length = if hash then 5 else 4 := by
    cases hash <;> rfl
  by_cases hs : (".in".toList).isSuffixOf f
  · have hle : 3 ≤ f.length :=
      List.IsSuffix.length_le ((List.isSuffixOf_iff_suffix).mp hs)
    rw [if_pos hs, List.length_append, List.length_take, hext] at hlen
    have h3 : (".in".toList).length = 3 := rfl
    rw [h3] at hlen
    cases hash <;> simp at hlen <;> omega
  · rw [if_neg hs, List.length_append, hext] at hlen
    cases hash <;> simp at hlen

/-- C3: hash-mode round trip — generating a `.hash` file from a target
program's output stores the lowercase-hex SHA-256 digest of that
output, and checking the same output against the generated file yields
Verdict Accepted. -/
theorem claim_C3_hash_roundtrip (env : TestEnv) (fs : FS) (f inp : Str)
    (hread : readFileFS fs f = .ok inp)
    (hrun : env.proc.runErr = none)
    (hcreate : env.createOk = true) (hwrite : env.writeOk = true)
    (hstat : statOf (fs (resolveExpectedPath true f)) = .notExist) :
    (genStep true false env fs f).fs (resolveExpectedPath true f) =
      .present (sha256hex env.proc.stdout) ∧
    (genStep true false env fs f).verdict = .generated ∧
    (checkStep true env (genStep true false env fs f).fs f).verdict = .accepted := by
  have hexec : executeProgram true (readFileFS fs f) env.proc =
      (.ok (sha256hex env.proc.stdout), env.proc.elapsed) := by
    unfold executeProgram
    rw [hread, hrun]
    rfl
  have hgen : genStep true false env fs f =
      ⟨.generated, env.proc.elapsed,
       updateFS fs (resolveExpectedPath true f) (.present (sha256hex env.proc.stdout)),
       true⟩ := by
    unfold genStep
    rw [if_pos (Or.inl hstat), hexec, hcreate, hwrite]
    simp
  refine ⟨?_, ?_, ?_⟩
  · rw [hgen]
    simp [updateFS]
  · rw [hgen]
  · rw [hgen]
    have hread' : readFileFS
        (updateFS fs (resolveExpectedPath true f) (.present (sha256hex env.proc.stdout))) f =
        .ok inp := by
      unfold readFileFS updateFS at *
      rw [if_neg (fun he => resolveExpectedPath_ne true f he.symm)]
      exact hread
    have hexec' : executeProgram true (readFileFS
        (updateFS fs (resolveExpectedPath true f) (.present (sha256hex env.proc.stdout))) f)
        env.proc = (.ok (sha256hex env.proc.stdout), env.proc.elapsed) := by
      unfold executeProgram
      rw [hread', hrun]
      rfl
    have hreadout : readFileFS
        (updateFS fs (resolveExpectedPath true f) (.present (sha256hex env.proc.stdout)))
        (resolveExpectedPath true f) = .ok (sha256hex env.proc.stdout) := by
      unfold readFileFS updateFS
      rw [if_pos rfl]
      show Except.ok (readFileNorm (sha256hex env.proc.stdout)) =
        Except.ok (sha256hex env.proc.stdout)
      rw [readFileNorm_sha256hex]
    unfold checkStep
    rw [hexec', hreadout]
    simp

/-- Witness for C3: a concrete input file, an absent `.hash` file and a
program printing `"hello"` generate and then re-accept. -/
theorem claim_C3_hash_roundtrip_witness :
    (genStep true false ⟨⟨none, "hello".toList, false, 4⟩, true, true, []⟩
        (fun p => if p = "a.in".toList then .present "1".toList else .absent)
        "a.in".toList).verdict = .generated ∧
    (checkStep true ⟨⟨none, "hello".toList, false, 4⟩, true, true, []⟩
        ((genStep true false ⟨⟨none, "hello".toList, false, 4⟩, true, true, []⟩
          (fun p => if p = "a.in".toList then .present "1".toList else .absent)
          "a.in".toList).fs)
        "a.in".toList).verdict = .accepted :=
  (claim_C3_hash_roundtrip ⟨⟨none, "hello".toList, false, 4⟩, true, true, []⟩
    (fun p => if p = "a.in".toList then .present "1".toList else .absent)
    "a.in".toList "1".toList rfl rfl rfl rfl rfl).2

/-- When the stat result is not a does-not-exist error and force is
off, a generate step skips without touching anything. -/
theorem genStep_skip (hash : Bool) (env : TestEnv) (fs : FS) (f : Str)
    (h : statOf (fs (resolveExpectedPath hash f)) ≠ .notExist) :
    genStep hash false env fs f = ⟨.skipped, 0, fs, false⟩ := by
  unfold genStep
  rw [if_neg ?hcond]
  case hcond =>
    rintro (hc | hc)
    · exact h hc
    · simp at hc

/-- Any loop step changes a path at most to a present file. -/
theorem runStep_fs_cases (cfg : Config) (env : TestEnv) (fs : FS) (f p : Str) :
    (runStep cfg env fs f).fs p = fs p ∨
    ∃ c, (runStep cfg env fs f).fs p = .present c := by
  unfold runStep
  by_cases hg : cfg.generate
  · rw [if_pos hg]
    unfold genStep
    by_cases hc : statOf (fs (resolveExpectedPath cfg.hash f)) = .notExist ∨ cfg.force
    · rw [if_pos hc]
      rcases hx : executeProgram cfg.hash (readFileFS fs f) env.proc with ⟨r, t⟩
      rcases r with r | a
      · rcases r
        · left; rfl
        · left; rfl
      · by_cases hco : env.createOk
        · by_cases hw : env.writeOk
          · simp only [hco, hw, if_true]
            unfold updateFS
            by_cases hp : p = resolveExpectedPath cfg.hash f
            · right
              exact ⟨a, by simp [hp]⟩
            · left
              simp [hp]
          · simp only [hco, hw, if_true, Bool.false_eq_true, if_false]
            unfold updateFS
            by_cases hp : p = resolveExpectedPath cfg.hash f
            · right
              exact ⟨env.partialContent, by simp [hp]⟩
            · left
              simp [hp]
        · simp [hco]
    · rw [if_neg hc]
      left
      rfl
  · rw [if_neg hg]
    left
    rw [(checkStep_fs_time cfg.hash env fs f).1]

/-- A run never turns an existing stat result back into
does-not-exist. -/
theorem runTests_stat_mono (cfg : Config) (envs : Str → TestEnv) :
    ∀ (files : List Str) (fs : FS) (p : Str),
      statOf (fs p) ≠ .notExist →
      statOf ((runTests cfg envs files fs).fs p) ≠ .notExist := by
  intro files
  induction files with
  | nil => intro fs p h; exact h
  | cons f rest ih =>
    intro fs p h
    rw [runTests_cons_fs]
    apply ih
    rcases runStep_fs_cases cfg (envs f) fs f p with hc | ⟨c, hc⟩
    · rw [hc]; exact h
    · rw [hc]; simp [statOf]

/-- The value of a generate step whose execution succeeded. -/
theorem genStep_eq_exec_ok (hash force : Bool) (env : TestEnv) (fs : FS) (f a : Str) (t : Nat)
    (hc : statOf (fs (resolveExpectedPath hash f)) = .notExist ∨ force = true)
    (hx : executeProgram hash (readFileFS fs f) env.proc = (.ok a, t)) :
    genStep hash force env fs f =
      if env.createOk then
        if env.writeOk then
          ⟨.generated, t, updateFS fs (resolveExpectedPath hash f) (.present a), true⟩
        else
          ⟨.writeError, t,
           updateFS fs (resolveExpectedPath hash f) (.present env.partialContent), true⟩
      else ⟨.writeError, t, fs, true⟩ := by
  unfold genStep
  rw [if_pos hc, hx]

/-- The value of a generate step whose execution timed out. -/
theorem genStep_eq_exec_tle (hash force : Bool) (env : TestEnv) (fs : FS) (f : Str) (t : Nat)
    (hc : statOf (fs (resolveExpectedPath hash f)) = .notExist ∨ force = true)
    (hx : executeProgram hash (readFileFS fs f) env.proc = (.error .timeout, t)) :
    genStep hash force env fs f = ⟨.tle, t, fs, true⟩ := by
  unfold genStep
  rw [if_pos hc, hx]

/-- The value of a generate step whose execution failed. -/
theorem genStep_eq_exec_runError (hash force : Bool) (env : TestEnv) (fs : FS) (f m : Str)
    (t : Nat)
    (hc : statOf (fs (resolveExpectedPath hash f)) = .notExist ∨ force = true)
    (hx : executeProgram hash (readFileFS fs f) env.proc = (.error (.execError m), t)) :
    genStep hash force env fs f = ⟨.runError, t, fs, true⟩ := by
  unfold genStep
  rw [if_pos hc, hx]

/-- A generate step without force ends Skipped only from the else
branch: the stat was not does-not-exist and the filesystem is
untouched. -/
theorem genStep_skipped_inv (hash : Bool) (env : TestEnv) (fs : FS) (f : Str)
    (h : (genStep hash false env fs f).verdict = .skipped) :
    statOf (fs (resolveExpectedPath hash f)) ≠ .notExist ∧
    (genStep hash false env fs f).fs = fs := by
  by_cases hc : statOf (fs (resolveExpectedPath hash f)) = .notExist ∨ (false : Bool) = true
  · exfalso
    rcases hx : executeProgram hash (readFileFS fs f) env.proc with ⟨r, t⟩
    rcases r with e | a
    · rcases e with _ | m
      · rw [genStep_eq_exec_tle hash false env fs f t hc hx] at h
        simp at h
      · rw [genStep_eq_exec_runError hash false env fs f m t hc hx] at h
        simp at h
    · rw [genStep_eq_exec_ok hash false env fs f a t hc hx] at h
      by_cases hco : env.createOk
      · by_cases hw : env.writeOk
        · rw [if_pos hco, if_pos hw] at h
          simp at h
        · rw [if_pos hco, if_neg hw] at h
          simp at h
      · rw [if_neg hco] at h
        simp at h
  · have hstep := genStep_skip hash env fs f (fun hne => hc (Or.inl hne))
    refine ⟨fun hne => hc (Or.inl hne), ?_⟩
    rw [hstep]

/-- A generate step that ends Generated wrote the expected file. -/
theorem genStep_generated_inv (hash force : Bool) (env : TestEnv) (fs : FS) (f : Str)
    (h : (genStep hash force env fs f).verdict = .generated) :
    ∃ c, (genStep hash force env fs f).fs (resolveExpectedPath hash f) = .present c := by
  by_cases hc : statOf (fs (resolveExpectedPath hash f)) = .notExist ∨ force = true
  · rcases hx : executeProgram hash (readFileFS fs f) env.proc with ⟨r, t⟩
    rcases r with e | a
    · exfalso
      rcases e with _ | m
      · rw [genStep_eq_exec_tle hash force env fs f t hc hx] at h
        simp at h
      · rw [genStep_eq_exec_runError hash force env fs f m t hc hx] at h
        simp at h
    · rw [genStep_eq_exec_ok hash force env fs f a t hc hx] at h ⊢
      by_cases hco : env.createOk
      · by_cases hw : env.writeOk
        · rw [if_pos hco, if_pos hw]
          refine ⟨a, ?_⟩
          unfold updateFS
          simp
        · rw [if_pos hco, if_neg hw] at h
          simp at h
      · rw [if_neg hco] at h
        simp at h
  · exfalso
    unfold genStep at h
    rw [if_neg hc] at h
    simp at h

/-- After a generate run without force whose every verdict is Generated
or Skipped, every expected-output path stats as existing. -/
theorem runTests_gen_post (hash : Bool) (envs : Str → TestEnv) :
    ∀ (files : List Str) (fs : FS),
      (∀ v ∈ (runTests ⟨hash, true, false⟩ envs files fs).verdicts,
        v = .generated ∨ v = .skipped) →
      ∀ f ∈ files,
        statOf ((runTests ⟨hash, true, false⟩ envs files fs).fs
          (resolveExpectedPath hash f)) ≠ .notExist := by
  intro files
  induction files with
  | nil => intro fs _ f hf; exact absurd hf (List.not_mem_nil f)
  | cons g rest ih =>
    intro fs hall f hf
    have hstep : runStep ⟨hash, true, false⟩ (envs g) fs g =
        genStep hash false (envs g) fs g := rfl
    rcases List.mem_cons.mp hf with hfg | hfr
    · subst hfg
      have hv : (runStep ⟨hash, true, false⟩ (envs f) fs f).verdict = .generated ∨
          (runStep ⟨hash, true, false⟩ (envs f) fs f).verdict = .skipped := by
        apply hall
        rw [runTests_cons_verdicts]
        exact List.mem_cons_self _ _
      rw [hstep] at hv
      rw [runTests_cons_fs, hstep]
      apply runTests_stat_mono
      rcases hv with hv | hv
      · obtain ⟨c, hc⟩ := genStep_generated_inv hash false (envs f) fs f hv
        rw [hc]
        simp [statOf]
      · obtain ⟨hne, hfs⟩ := genStep_skipped_inv hash (envs f) fs f hv
        rw [hfs]
        exact hne
    · rw [runTests_cons_fs]
      apply ih
      · intro v hvmem
        apply hall
        rw [runTests_cons_verdicts]
        exact List.mem_cons_of_mem _ hvmem
      · exact hfr

/-- A generate run over already-satisfied expected files skips every
test and changes nothing. -/
theorem runTests_all_skip (hash : Bool) (envs : Str → TestEnv) :
    ∀ (files : List Str) (fs : FS),
      (∀ f ∈ files, statOf (fs (resolveExpectedPath hash f)) ≠ .notExist) →
      (runTests ⟨hash, true, false⟩ envs files fs).verdicts =
        List.replicate files.length .skipped ∧
      (runTests ⟨hash, true, false⟩ envs files fs).fs = fs ∧
      (runTests ⟨hash, true, false⟩ envs files fs).totals.passed = files.length ∧
      (runTests ⟨hash, true, false⟩ envs files fs).totals.generated = 0 ∧
      (runTests ⟨hash, true, false⟩ envs files fs).totals.time = 0 := by
  intro files
  induction files with
  | nil => intro fs _; exact ⟨rfl, rfl, rfl, rfl, rfl⟩
  | cons g rest ih =>
    intro fs hall
    have hstep : runStep ⟨hash, true, false⟩ (envs g) fs g = ⟨.skipped, 0, fs, false⟩ :=
      genStep_skip hash (envs g) fs g (hall g (List.mem_cons_self _ _))
    have hfs : (runStep ⟨hash, true, false⟩ (envs g) fs g).fs = fs := by rw [hstep]
    have hv : (runStep ⟨hash, true, false⟩ (envs g) fs g).verdict = .skipped := by rw [hstep]
    have ht : (runStep ⟨hash, true, false⟩ (envs g) fs g).time = 0 := by rw [hstep]
    obtain ⟨ihv, ihf, ihp, ihg, iht⟩ := ih fs (fun f hf => hall f (List.mem_cons_of_mem _ hf))
    refine ⟨?_, ?_, ?_, ?_, ?_⟩
    · rw [runTests_cons_verdicts, hv, hfs, ihv, List.length_cons, List.replicate_succ]
    · rw [runTests_cons_fs, hfs, ihf]
    · rw [runTests_cons_passed, hv, hfs, ihp]
      simp only [passedInc, if_true, List.length_cons]
      omega
    · rw [runTests_cons_generated, hv, hfs, ihg]
      simp [generatedInc]
    · rw [runTests_cons_time, ht, hfs, iht]

/-- C4 fails as stated: when a test's execution fails in generate mode
(here a spawn failure), the second generate run repeats the failure
instead of yielding Skipped, although no file was written. -/
theorem claim_C4_counterexample :
    (runTests ⟨false, true, false⟩
        (fun _ => ⟨⟨some "boom".toList, [], false, 2⟩, true, true, []⟩)
        ["a.in".toList]
        (fun p => if p = "a.in".toList then .present "3".toList else .absent)).verdicts =
      [.runError] ∧
    (runTests ⟨false, true, false⟩
        (fun _ => ⟨⟨some "boom".toList, [], false, 2⟩, true, true, []⟩)
        ["a.in".toList]
        (runTests ⟨false, true, false⟩
          (fun _ => ⟨⟨some "boom".toList, [], false, 2⟩, true, true, []⟩)
          ["a.in".toList]
          (fun p => if p = "a.in".toList then .present "3".toList
                    else .absent)).fs).verdicts = [.runError] := by
  exact ⟨rfl, rfl⟩

/-- C4 (amended): in generate mode with force false, a test whose
expected-output file exists is Skipped, counted as already existing,
without invoking the executor or touching any file; and when every test
of a first generate run ends Generated or Skipped, a second run without
`-f` changes no file and yields all Skipped. -/
theorem claim_C4_generate_skip_idempotent (hash : Bool) (envs : Str → TestEnv)
    (files : List Str) (fs : FS) :
    (∀ env f c, fs (resolveExpectedPath hash f) = .present c →
      genStep hash false env fs f = ⟨.skipped, 0, fs, false⟩) ∧
    ((∀ v ∈ (runTests ⟨hash, true, false⟩ envs files fs).verdicts,
        v = .generated ∨ v = .skipped) →
      (runTests ⟨hash, true, false⟩ envs files
          (runTests ⟨hash, true, false⟩ envs files fs).fs).verdicts =
        List.replicate files.length .skipped ∧
      (runTests ⟨hash, true, false⟩ envs files
          (runTests ⟨hash, true, false⟩ envs files fs).fs).fs =
        (runTests ⟨hash, true, false⟩ envs files fs).fs) := by
  constructor
  · intro env f c hc
    apply genStep_skip
    rw [hc]
    simp [statOf]
  · intro hall
    have hpost := runTests_gen_post hash envs files fs hall
    have hskip := runTests_all_skip hash envs files
      (runTests ⟨hash, true, false⟩ envs files fs).fs hpost
    exact ⟨hskip.1, hskip.2.1⟩

/-- Witness for C4 (amended): one test with an existing expected file
skips, and re-running generate after a clean run yields all Skipped. -/
theorem claim_C4_generate_skip_idempotent_witness :
    genStep false false ⟨⟨none, "4".toList, false, 1⟩, true, true, []⟩
      (fun p => if p = "a.in".toList then .present "3".toList
                else if p = "a.out".toList then .present "4".toList else .absent)
      "a.in".toList =
      ⟨.skipped, 0,
       (fun p => if p = "a.in".toList then .present "3".toList
                 else if p = "a.out".toList then .present "4".toList else .absent),
       false⟩ ∧
    (runTests ⟨false, true, false⟩
        (fun _ => ⟨⟨none, "4".toList, false, 1⟩, true, true, []⟩)
        ["a.in".toList]
        (runTests ⟨false, true, false⟩
          (fun _ => ⟨⟨none, "4".toList, false, 1⟩, true, true, []⟩)
          ["a.in".toList]
          (fun p => if p = "a.in".toList then .present "3".toList
                    else if p = "a.out".toList then .present "4".toList
                    else .absent)).fs).verdicts = List.replicate 1 .skipped := by
  have h := claim_C4_generate_skip_idempotent false
    (fun _ => ⟨⟨none, "4".toList, false, 1⟩, true, true, []⟩)
    ["a.in".toList]
    (fun p => if p = "a.in".toList then .present "3".toList
              else if p = "a.out".toList then .present "4".toList else .absent)
  refine ⟨h.1 ⟨⟨none, "4".toList, false, 1⟩, true, true, []⟩ "a.in".toList "4".toList rfl,
    (h.2 ?_).1⟩
  decide
